import Mathlib

/-!
Shallow embedding of `src/jdiff.py` (a Python port of JojoDiff's diff tool)
and verification of the frozen claims about its patch codec.

The encoder side (`PatchWriter._put_len`, `_put_byte`, `write_eql`,
`write_del`, `write_ins_byte`, `write_mod_byte`, and the translation loop of
`generate_patch`) is embedded from the source.  Bytes are `Nat` values in
`[0, 255]`; the output stream is a `List Nat`; Python exceptions are `none`.
The decoder is not part of `src/` and is modelled from the spec where a claim
needs it.
-/

namespace JDiff

/-- Control code `ESC = 0xA7` from `src/jdiff.py`. -/
def ESC : Nat := 0xA7

/-- Control code `MOD = 0xA6` from `src/jdiff.py`. -/
def MOD : Nat := 0xA6

/-- Control code `INS = 0xA5` from `src/jdiff.py`. -/
def INS : Nat := 0xA5

/-- Control code `DEL = 0xA4` from `src/jdiff.py`. -/
def DEL : Nat := 0xA4

/-- Control code `EQL = 0xA3` from `src/jdiff.py`. -/
def EQL : Nat := 0xA3

/-- Control code `BKT = 0xA2` from `src/jdiff.py`. -/
def BKT : Nat := 0xA2

/-- Models Python `bytes([x])` for a single element: it succeeds exactly when
`0 <= x <= 255` and raises `ValueError` otherwise. -/
def mkByte (x : Int) : Option Nat :=
  if 0 ≤ x ∧ x ≤ 255 then some x.toNat else none

/-- Models Python `length.to_bytes(8, "big")`: succeeds exactly when
`0 <= length < 2^64`, producing the eight big-endian bytes, and raises
`OverflowError` otherwise. -/
def toBytes8 (length : Int) : Option (List Nat) :=
  if 0 ≤ length ∧ length < 18446744073709551616 then
    some [length.toNat / 72057594037927936 % 256, length.toNat / 281474976710656 % 256,
          length.toNat / 1099511627776 % 256, length.toNat / 4294967296 % 256,
          length.toNat / 16777216 % 256, length.toNat / 65536 % 256,
          length.toNat / 256 % 256, length.toNat % 256]
  else none

/-- Embedding of `PatchWriter._put_len` (src/jdiff.py lines 45-65).
`some bs` means the call wrote exactly `bs` to the sink; `none` means it
raised.  Every branch of the Python code builds its single `bytes` object
completely before the one `self.f.write` call, so a raising call writes
nothing — `none` therefore also records that no bytes reached the sink.
In the third and fourth branches `length > 508`, so `length.toNat` is exact
and the Python `(length >> k) & 0xFF` is the `Nat` expression
`(length.toNat >>> k) &&& 0xFF`. -/
def put_len (length : Int) : Option (List Nat) :=
  if length ≤ 252 then
    (mkByte (length - 1)).map (fun b => [b])
  else if length ≤ 508 then
    (mkByte (length - 253)).map (fun b => [252, b])
  else if length ≤ 0xFFFF then
    some [253, (length.toNat >>> 8) &&& 0xFF, length.toNat &&& 0xFF]
  else if length ≤ 0xFFFFFFFF then
    some [254, (length.toNat >>> 24) &&& 0xFF, (length.toNat >>> 16) &&& 0xFF,
          (length.toNat >>> 8) &&& 0xFF, length.toNat &&& 0xFF]
  else
    (toBytes8 length).map (fun bs => 255 :: bs)

/-- Embedding of `PatchWriter._put_byte` (src/jdiff.py lines 70-85).
Input: the escape state `_out_esc` on entry and the data byte `b`.
Output: the escape state on exit and the bytes written, in order. -/
def put_byte (esc : Bool) (b : Nat) : Bool × List Nat :=
  let pre : List Nat :=
    if esc then (if BKT ≤ b ∧ b ≤ ESC then [ESC, ESC] else [ESC]) else []
  if b = ESC then (true, pre) else (false, pre ++ [b])

/-- Embedding of `PatchWriter.write_eql` (src/jdiff.py lines 87-90): writes
`ESC`, `EQL`, then the encoded length.  The escape state is not consulted or
changed (the marker prefix is written raw via `_put_esc`/`f.write`).
On a `_put_len` failure the call raises; `none` elides the two marker bytes
already written before the raise, which no claim relies on. -/
def write_eql (esc : Bool) (length : Int) : Option (Bool × List Nat) :=
  (put_len length).map (fun l => (esc, ESC :: EQL :: l))

/-- Embedding of `PatchWriter.write_del` (src/jdiff.py lines 92-95). -/
def write_del (esc : Bool) (length : Int) : Option (Bool × List Nat) :=
  (put_len length).map (fun l => (esc, ESC :: DEL :: l))

/-- Embedding of `PatchWriter.write_mod_byte` (src/jdiff.py lines 97-100):
writes `ESC`, `MOD`, then the escaped data byte (whose output may begin with
the resolution bytes of a pending escape left by a previous data byte). -/
def write_mod_byte (esc : Bool) (b : Nat) : Bool × List Nat :=
  ((put_byte esc b).1, ESC :: MOD :: (put_byte esc b).2)

/-- Embedding of `PatchWriter.write_ins_byte` (src/jdiff.py lines 102-105). -/
def write_ins_byte (esc : Bool) (b : Nat) : Bool × List Nat :=
  ((put_byte esc b).1, ESC :: INS :: (put_byte esc b).2)

/-- Opcode tags of `difflib.SequenceMatcher.get_opcodes`, the external
edit-script source consumed by `generate_patch`. -/
inductive Tag where
  | equal
  | delete
  | insert
  | replace
deriving DecidableEq, Repr

/-- One opcode `(tag, i1, i2, j1, j2)` from the edit-script source. -/
structure Run where
  tag : Tag
  i1 : Nat
  i2 : Nat
  j1 : Nat
  j2 : Nat
deriving DecidableEq, Repr

/-- Python slice `xs[a:b]` for non-negative indices (as `difflib` produces):
clamped at the length, empty when `b <= a`. -/
def slice (xs : List Nat) (a b : Nat) : List Nat :=
  (xs.take b).drop a

/-- One writer call issued by the translation loop of `generate_patch`. -/
inductive Call where
  | eql (length : Nat)
  | del (length : Nat)
  | ins (b : Nat)
  | mod (b : Nat)
deriving DecidableEq, Repr

/-- The writer calls that one opcode of `generate_patch`
(src/jdiff.py lines 112-136) issues.  Index arithmetic `i2 - i1` is `Nat`
subtraction; for the malformed case `i2 < i1` Python's negative difference
fails the same `> 0` guards (and the `dels == len(ins_bytes)` test) that the
truncated-to-zero difference fails here, so the emitted calls agree on all
inputs. -/
def runCalls (new : List Nat) (r : Run) : List Call :=
  match r.tag with
  | .equal =>
      if r.i2 - r.i1 > 0 then [.eql (r.i2 - r.i1)] else []
  | .delete =>
      if r.i2 - r.i1 > 0 then [.del (r.i2 - r.i1)] else []
  | .insert =>
      (slice new r.j1 r.j2).map .ins
  | .replace =>
      let dels := r.i2 - r.i1
      let insBytes := slice new r.j1 r.j2
      if dels = insBytes.length ∧ dels > 0 then
        insBytes.map .mod
      else
        (if dels > 0 then [.del dels] else []) ++ insBytes.map .ins

/-- The full sequence of writer calls `generate_patch` issues for an opcode
list, in order. -/
def generate_patch_calls (new : List Nat) (runs : List Run) : List Call :=
  runs.foldr (fun r acc => runCalls new r ++ acc) []

/-- Executes one writer call against the writer state: the escape flag and
the bytes written so far.  `none` propagates a raise from `_put_len`. -/
def execCall (st : Bool × List Nat) : Call → Option (Bool × List Nat)
  | .eql l => (write_eql st.1 (l : Int)).map (fun r => (r.1, st.2 ++ r.2))
  | .del l => (write_del st.1 (l : Int)).map (fun r => (r.1, st.2 ++ r.2))
  | .ins b => some ((write_ins_byte st.1 b).1, st.2 ++ (write_ins_byte st.1 b).2)
  | .mod b => some ((write_mod_byte st.1 b).1, st.2 ++ (write_mod_byte st.1 b).2)

/-- Executes a list of writer calls in order. -/
def execCalls (st : Bool × List Nat) : List Call → Option (Bool × List Nat)
  | [] => some st
  | c :: cs => (execCall st c).bind (fun st2 => execCalls st2 cs)

/-- Embedding of `generate_patch` (src/jdiff.py lines 108-136) applied to an
opcode list from the external edit-script source: the final escape state and
the patch bytes written, starting from a fresh `PatchWriter`
(`_out_esc = False`, nothing written).  `orig` is consumed only by the
edit-script source, so it is not a parameter here. -/
def generate_patch (new : List Nat) (runs : List Run) : Option (Bool × List Nat) :=
  execCalls (false, []) (generate_patch_calls new runs)

/-- Modelled from the spec: the length decoder of section 4.1 is absent from
`src/` (the decoder lives in the companion `jpatch.py`, not provided).  Helper
reading `k` big-endian bytes into an accumulator; `none` is the spec's
`MalformedLength` (selector promised more bytes than the stream holds). -/
def takeBE : Nat → Nat → List Nat → Option (Nat × List Nat)
  | 0, acc, rest => some (acc, rest)
  | _ + 1, _, [] => none
  | k + 1, acc, b :: rest => takeBE k (acc * 256 + b) rest

/-- Modelled from the spec: the first-byte dispatch of section 4.1 for the
length decoder, absent from `src/`.  Values 0-251 mean `length = byte + 1`;
252, 253, 254, 255 select the two-byte, 16-bit, 32-bit and 64-bit tiers. -/
def decode_len : List Nat → Option (Nat × List Nat)
  | [] => none
  | b :: rest =>
      if b ≤ 251 then some (b + 1, rest)
      else if b = 252 then
        match rest with
        | [] => none
        | c :: r => some (c + 253, r)
      else if b = 253 then takeBE 2 0 rest
      else if b = 254 then takeBE 4 0 rest
      else takeBE 8 0 rest

/-- Decoder data mode: after an `ESC INS` (resp. `ESC MOD`) prefix the
following escaped data bytes are inserts (resp. byte-for-byte replacements);
`idle` means no data-carrying instruction has been seen yet. -/
inductive Mode where
  | idle
  | ins
  | mod
deriving DecidableEq, Repr

/-- Modelled from the spec: the effect of one decoded data byte (section 4.3),
absent from `src/`.  An insert byte is appended to the output; a mod byte is
appended and consumes one original byte (`CursorOverrun` when past the end,
section 7); a data byte before any `INS`/`MOD` marker is malformed. -/
def applyData (orig : List Nat) (cur : Nat) (out : List Nat) (m : Mode)
    (b : Nat) : Option (Nat × List Nat) :=
  match m with
  | .idle => none
  | .ins => some (cur, out ++ [b])
  | .mod => if cur < orig.length then some (cur + 1, out ++ [b]) else none

/-- Modelled from the spec: the patch decoder, absent from `src/`, as the
exact inverse of sections 4.1-4.3 and 6.  Fuel-indexed loop over the patch
bytes (each step consumes at least one byte, so `patch.length + 1` fuel always
suffices).  On `ESC` it looks ahead (section 4.2): a marker byte is an
instruction (`EQL`/`DEL` copy or skip original bytes, `INS`/`MOD` set the data
mode, `BKT` is tolerated and skipped); a second `ESC` resolves to one literal
`ESC` data byte; any other byte resolves to a literal `ESC` data byte followed
by that byte as data.  A raw non-`ESC` byte is a data byte in the current
mode.  Exhaustion of the patch at a byte boundary is terminal (section 6);
`none` is a fatal decode error of section 7. -/
def jpatchF (orig : List Nat) : Nat → List Nat → Nat → Mode → List Nat →
    Option (List Nat)
  | 0, _, _, _, _ => none
  | _ + 1, [], _, _, out => some out
  | fuel + 1, x :: rest, cur, m, out =>
      if x = ESC then
        match rest with
        | [] => none
        | y :: r2 =>
            if y = EQL then
              match decode_len r2 with
              | none => none
              | some (L, r3) =>
                  if cur + L ≤ orig.length then
                    jpatchF orig fuel r3 (cur + L) m
                      (out ++ slice orig cur (cur + L))
                  else none
            else if y = DEL then
              match decode_len r2 with
              | none => none
              | some (L, r3) =>
                  if cur + L ≤ orig.length then jpatchF orig fuel r3 (cur + L) m out
                  else none
            else if y = INS then jpatchF orig fuel r2 cur .ins out
            else if y = MOD then jpatchF orig fuel r2 cur .mod out
            else if y = BKT then jpatchF orig fuel r2 cur m out
            else if y = ESC then
              match applyData orig cur out m ESC with
              | none => none
              | some (c2, o2) => jpatchF orig fuel r2 c2 m o2
            else
              match applyData orig cur out m ESC with
              | none => none
              | some (c2, o2) =>
                  match applyData orig c2 o2 m y with
                  | none => none
                  | some (c3, o3) => jpatchF orig fuel r2 c3 m o3
      else
        match applyData orig cur out m x with
        | none => none
        | some (c2, o2) => jpatchF orig fuel rest c2 m o2

/-- Modelled from the spec: decoding a patch stream against the original
bytes, starting at cursor 0 with no data mode and empty output. -/
def jpatch (orig patch : List Nat) : Option (List Nat) :=
  jpatchF orig (patch.length + 1) patch 0 .idle []

/-- Written from the spec words of the section 4.1 table: the exact bytes the
spec says a length `L ≥ 1` encodes to (one byte `L-1`; or `252, L-253`; or
`253` plus big-endian 16-bit `L`; or `254` plus big-endian 32-bit `L`; or
`255` plus big-endian 64-bit `L`).  Compared against `put_len`, the embedding
of the source. -/
def lenBytesTable (L : Nat) : List Nat :=
  if L ≤ 252 then [L - 1]
  else if L ≤ 508 then [252, L - 253]
  else if L ≤ 65535 then [253, L / 256 % 256, L % 256]
  else if L ≤ 4294967295 then
    [254, L / 16777216 % 256, L / 65536 % 256, L / 256 % 256, L % 256]
  else
    [255, L / 72057594037927936 % 256, L / 281474976710656 % 256,
     L / 1099511627776 % 256, L / 4294967296 % 256,
     L / 16777216 % 256, L / 65536 % 256, L / 256 % 256, L % 256]

theorem and_255_eq_mod (n : Nat) : n &&& 255 = n % 256 := by
  have h := Nat.and_pow_two_sub_one_eq_mod n 8
  norm_num at h
  exact h

/-- The source length encoder agrees with the spec's section 4.1 table on the
whole domain where it succeeds. -/
theorem put_len_eq_table (L : Nat) (h1 : 1 ≤ L) (h2 : L ≤ 18446744073709551615) :
    put_len (L : Int) = some (lenBytesTable L) := by
  unfold put_len lenBytesTable mkByte toBytes8
  rcases le_or_lt L 252 with hA | hA
  · rw [if_pos (by omega : (L : Int) ≤ 252), if_pos hA,
      if_pos (show 0 ≤ (L : Int) - 1 ∧ (L : Int) - 1 ≤ 255 by omega)]
    have h : ((L : Int) - 1).toNat = L - 1 := by omega
    simp [h]
  · rcases le_or_lt L 508 with hB | hB
    · rw [if_neg (by omega : ¬ (L : Int) ≤ 252), if_neg (by omega : ¬ L ≤ 252),
        if_pos (by omega : (L : Int) ≤ 508), if_pos hB,
        if_pos (show 0 ≤ (L : Int) - 253 ∧ (L : Int) - 253 ≤ 255 by omega)]
      have h : ((L : Int) - 253).toNat = L - 253 := by omega
      simp [h]
    · rcases le_or_lt L 65535 with hC | hC
      · rw [if_neg (by omega : ¬ (L : Int) ≤ 252), if_neg (by omega : ¬ L ≤ 252),
          if_neg (by omega : ¬ (L : Int) ≤ 508), if_neg (by omega : ¬ L ≤ 508),
          if_pos (show (L : Int) ≤ 0xFFFF by omega), if_pos hC]
        simp [Nat.shiftRight_eq_div_pow, and_255_eq_mod]
      · rcases le_or_lt L 4294967295 with hD | hD
        · rw [if_neg (by omega : ¬ (L : Int) ≤ 252), if_neg (by omega : ¬ L ≤ 252),
            if_neg (by omega : ¬ (L : Int) ≤ 508), if_neg (by omega : ¬ L ≤ 508),
            if_neg (show ¬ (L : Int) ≤ 0xFFFF by omega), if_neg (by omega : ¬ L ≤ 65535),
            if_pos (show (L : Int) ≤ 0xFFFFFFFF by omega), if_pos hD]
          simp [Nat.shiftRight_eq_div_pow, and_255_eq_mod]
        · rw [if_neg (by omega : ¬ (L : Int) ≤ 252), if_neg (by omega : ¬ L ≤ 252),
            if_neg (by omega : ¬ (L : Int) ≤ 508), if_neg (by omega : ¬ L ≤ 508),
            if_neg (show ¬ (L : Int) ≤ 0xFFFF by omega), if_neg (by omega : ¬ L ≤ 65535),
            if_neg (show ¬ (L : Int) ≤ 0xFFFFFFFF by omega),
            if_neg (by omega : ¬ L ≤ 4294967295),
            if_pos (show 0 ≤ (L : Int) ∧ (L : Int) < 18446744073709551616 by omega)]
          simp

/-- The spec's first-byte dispatch decodes every table encoding back to the
length it came from, leaving the remaining stream untouched. -/
theorem decode_table (L : Nat) (h1 : 1 ≤ L) (h2 : L ≤ 18446744073709551615)
    (rest : List Nat) : decode_len (lenBytesTable L ++ rest) = some (L, rest) := by
  unfold lenBytesTable
  rcases le_or_lt L 252 with hA | hA
  · rw [if_pos hA]
    simp only [List.cons_append, List.nil_append, decode_len]
    rw [if_pos (by omega : L - 1 ≤ 251)]
    have h : L - 1 + 1 = L := by omega
    rw [h]
  · rcases le_or_lt L 508 with hB | hB
    · rw [if_neg (by omega), if_pos hB]
      simp only [List.cons_append, List.nil_append, decode_len]
      norm_num
      omega
    · rcases le_or_lt L 65535 with hC | hC
      · rw [if_neg (by omega), if_neg (by omega), if_pos hC]
        simp only [List.cons_append, List.nil_append, decode_len, takeBE]
        norm_num
        omega
      · rcases le_or_lt L 4294967295 with hD | hD
        · rw [if_neg (by omega), if_neg (by omega), if_neg (by omega), if_pos hD]
          simp only [List.cons_append, List.nil_append, decode_len, takeBE]
          norm_num
          omega
        · rw [if_neg (by omega), if_neg (by omega), if_neg (by omega),
            if_neg (by omega)]
          simp only [List.cons_append, List.nil_append, decode_len, takeBE]
          norm_num
          omega

/-- Success domain of the source length encoder: `_put_len` writes a value
(and raises nothing) exactly for lengths in `[1, 2^64 - 1]`. -/
theorem put_len_isSome (length : Int) :
    (put_len length).isSome ↔ 1 ≤ length ∧ length ≤ 18446744073709551615 := by
  unfold put_len mkByte toBytes8
  split_ifs <;> simp <;> omega

/-- C3 counterexample: the claim quantifies over `1 ≤ L ≤ 2^64`, but at
`L = 2^64 = 18446744073709551616` the source `_put_len` raises
(`OverflowError` from `length.to_bytes(8, "big")`) instead of succeeding. -/
theorem len_roundtrip_fails_at_top :
    1 ≤ (18446744073709551616 : Int) ∧ put_len 18446744073709551616 = none := by
  constructor
  · norm_num
  · decide

/-- C3 (amended to `1 ≤ L ≤ 2^64 - 1`): `_put_len L` succeeds and the bytes it
writes decode back to exactly `L` under the first-byte dispatch of section
4.1, whatever stream bytes follow. -/
theorem len_roundtrip (L : Nat) (h1 : 1 ≤ L) (h2 : L ≤ 18446744073709551615)
    (rest : List Nat) :
    ∃ bs, put_len (L : Int) = some bs ∧ decode_len (bs ++ rest) = some (L, rest) :=
  ⟨lenBytesTable L, put_len_eq_table L h1 h2, decode_table L h1 h2 rest⟩

/-- C3 witness: the round-trip theorem applied at the concrete length 300
with trailing stream `[7]`. -/
theorem len_roundtrip_witness :
    ∃ bs, put_len ((300 : Nat) : Int) = some bs ∧
      decode_len (bs ++ [7]) = some (300, [7]) :=
  len_roundtrip 300 (by norm_num) (by norm_num) [7]

/-- C4 counterexample: the claim quantifies over every `L ≥ 1`, but at
`L = 2^64` the source `_put_len` raises instead of writing the nine-byte
`255` tier of the section 4.1 table. -/
theorem table_encoding_fails_at_top :
    1 ≤ (18446744073709551616 : Int) ∧
      put_len 18446744073709551616 ≠ some (lenBytesTable 18446744073709551616) := by
  constructor
  · norm_num
  · decide

/-- C4 (amended to `1 ≤ L ≤ 2^64 - 1` for the top tier): `_put_len L` writes
exactly the bytes of the section 4.1 table, and the boundary lengths
252, 253, 508, 509, 65535, 65536 encode with widths 1, 2, 2, 3, 3, 5. -/
theorem put_len_matches_table :
    (∀ L : Nat, 1 ≤ L → L ≤ 18446744073709551615 →
      put_len (L : Int) = some (lenBytesTable L)) ∧
    (put_len 252).map List.length = some 1 ∧
    (put_len 253).map List.length = some 2 ∧
    (put_len 508).map List.length = some 2 ∧
    (put_len 509).map List.length = some 3 ∧
    (put_len 65535).map List.length = some 3 ∧
    (put_len 65536).map List.length = some 5 := by
  refine ⟨fun L h1 h2 => put_len_eq_table L h1 h2, ?_, ?_, ?_, ?_, ?_, ?_⟩ <;> decide

/-- C4 witness: the table theorem applied at the concrete length 600, whose
table row is `253` followed by big-endian 16-bit 600. -/
theorem put_len_matches_table_witness :
    put_len ((600 : Nat) : Int) = some [253, 2, 88] := by
  have h := put_len_matches_table.1 600 (by norm_num) (by norm_num)
  have ht : lenBytesTable 600 = [253, 2, 88] := by decide
  rw [ht] at h
  exact h

/-- C10 (confirmed): `_put_len length` succeeds exactly for
`1 ≤ length ≤ 2^64 - 1`; for `length ≤ 0` it raises (byte value out of range
in `bytes([length - 1])`) and for `length ≥ 2^64` it raises (overflow in
`length.to_bytes(8, "big")`).  In the embedding `none` is a raise, and since
every branch of the source builds its single `bytes` object before its one
`f.write` call, a raising call has written nothing to the sink. -/
theorem put_len_domain (length : Int) :
    (1 ≤ length → length ≤ 18446744073709551615 → (put_len length).isSome) ∧
    (length ≤ 0 → put_len length = none) ∧
    (18446744073709551616 ≤ length → put_len length = none) := by
  refine ⟨fun h1 h2 => (put_len_isSome length).mpr ⟨h1, h2⟩, fun h => ?_, fun h => ?_⟩
  · rw [← Option.not_isSome_iff_eq_none, put_len_isSome]
    omega
  · rw [← Option.not_isSome_iff_eq_none, put_len_isSome]
    omega

/-- C10 witness: the domain theorem applied at the concrete lengths 5, 0 and
`2^64`, covering the success case and both error cases. -/
theorem put_len_domain_witness :
    (put_len 5).isSome ∧ put_len 0 = none ∧ put_len 18446744073709551616 = none :=
  ⟨(put_len_domain 5).1 (by norm_num) (by norm_num),
   (put_len_domain 0).2.1 (by norm_num),
   (put_len_domain 18446744073709551616).2.2 (by norm_num)⟩

/-- Written from the spec words of section 4.2: if the state is true on
entry, first emit one extra `ESC` when `0xA2 ≤ b ≤ 0xA7`, then always emit one
`ESC`, and clear the state; afterwards, if `b = 0xA7` emit nothing further and
set the state true, otherwise emit `b` itself and leave the state false.
Compared against `put_byte`, the embedding of the source. -/
def put_byte_spec (esc : Bool) (b : Nat) : Bool × List Nat :=
  let resolving : List Nat :=
    if esc then (if 0xA2 ≤ b ∧ b ≤ 0xA7 then [0xA7] else []) ++ [0xA7] else []
  if b = 0xA7 then (true, resolving) else (false, resolving ++ [b])

/-- C5 (confirmed): for every byte `b` in `[0, 255]` and every escape-state
value, `_put_byte b` behaves exactly as section 4.2 prescribes. -/
theorem put_byte_matches_spec (esc : Bool) (b : Nat) (_hb : b ≤ 255) :
    put_byte esc b = put_byte_spec esc b := by
  cases esc <;>
    simp only [put_byte, put_byte_spec, ESC, BKT] <;>
    split_ifs <;>
    simp_all

/-- C5 witness: the step theorem applied at the concrete input of a pending
escape state and the data byte `0xA7`, where all three spec clauses fire. -/
theorem put_byte_matches_spec_witness :
    put_byte true 0xA7 = put_byte_spec true 0xA7 :=
  put_byte_matches_spec true 0xA7 (by norm_num)

/-- Length of a Python slice whose bounds lie inside the list. -/
theorem slice_length (xs : List Nat) (a b : Nat) (hab : a ≤ b)
    (hb : b ≤ xs.length) : (slice xs a b).length = b - a := by
  simp [slice]
  omega

/-- C6 (confirmed): for every replace run with `d = i2 - i1` original bytes
and `n = j2 - j1` new bytes, if `d = n` and `d > 0` the translator emits
exactly `n` `write_mod_byte` calls over `new[j1:j2]` in order and no delete or
insert; otherwise it emits one `write_del d` when `d > 0` followed by one
`write_ins_byte` per byte of `new[j1:j2]` in order, and no mod. -/
theorem replace_tiebreak (new : List Nat) (r : Run) (ht : r.tag = .replace)
    (hj : r.j1 ≤ r.j2) (hlen : r.j2 ≤ new.length) :
    (r.i2 - r.i1 = r.j2 - r.j1 ∧ 0 < r.i2 - r.i1 →
      runCalls new r = (slice new r.j1 r.j2).map Call.mod) ∧
    (¬ (r.i2 - r.i1 = r.j2 - r.j1 ∧ 0 < r.i2 - r.i1) →
      runCalls new r =
        (if 0 < r.i2 - r.i1 then [Call.del (r.i2 - r.i1)] else []) ++
          (slice new r.j1 r.j2).map Call.ins) := by
  obtain ⟨tag, i1, i2, j1, j2⟩ := r
  simp only at ht
  subst ht
  dsimp only at hj hlen ⊢
  have hsl : (slice new j1 j2).length = j2 - j1 := slice_length new j1 j2 hj hlen
  constructor
  · intro hc
    simp only [runCalls]
    rw [if_pos (by omega : i2 - i1 = (slice new j1 j2).length ∧ i2 - i1 > 0)]
  · intro hc
    simp only [runCalls]
    rw [if_neg (by omega : ¬ (i2 - i1 = (slice new j1 j2).length ∧ i2 - i1 > 0))]

/-- C6 witness: the tie-break theorem applied to the concrete replace run of
two original bytes by the two bytes `[9, 8]`, which yields two mod calls. -/
theorem replace_tiebreak_witness :
    runCalls [9, 8] ⟨.replace, 0, 2, 0, 2⟩ = [Call.mod 9, Call.mod 8] := by
  have h := (replace_tiebreak [9, 8] ⟨.replace, 0, 2, 0, 2⟩ rfl (by norm_num)
    (by norm_num)).1 (by norm_num)
  rw [h]
  decide

/-- C7 (confirmed): every writer call begins its own output with the byte
`0xA7` (`ESC`) immediately followed by its marker byte — `EQL = 0xA3`,
`DEL = 0xA4`, `INS = 0xA5`, `MOD = 0xA6` (`BKT = 0xA2` is never used as an
instruction marker) — followed by the operand: an encoded length for
`EQL`/`DEL`, one escaped data byte for `INS`/`MOD`. -/
theorem instruction_framing :
    (∀ esc length st bs, write_eql esc length = some (st, bs) →
      ∃ tail, put_len length = some tail ∧ bs = 0xA7 :: 0xA3 :: tail) ∧
    (∀ esc length st bs, write_del esc length = some (st, bs) →
      ∃ tail, put_len length = some tail ∧ bs = 0xA7 :: 0xA4 :: tail) ∧
    (∀ esc b, (write_ins_byte esc b).2 = 0xA7 :: 0xA5 :: (put_byte esc b).2) ∧
    (∀ esc b, (write_mod_byte esc b).2 = 0xA7 :: 0xA6 :: (put_byte esc b).2) ∧
    ESC = 0xA7 ∧ EQL = 0xA3 ∧ DEL = 0xA4 ∧ INS = 0xA5 ∧ MOD = 0xA6 ∧
    BKT = 0xA2 ∧ EQL ≠ BKT ∧ DEL ≠ BKT ∧ INS ≠ BKT ∧ MOD ≠ BKT := by
  refine ⟨?_, ?_, fun esc b => rfl, fun esc b => rfl,
    rfl, rfl, rfl, rfl, rfl, rfl, by decide, by decide, by decide, by decide⟩
  · intro esc length st bs h
    unfold write_eql at h
    cases hp : put_len length with
    | none => rw [hp] at h; simp at h
    | some tail =>
        rw [hp] at h
        simp only [Option.map_some', Option.some.injEq, Prod.mk.injEq] at h
        exact ⟨tail, rfl, h.2.symm⟩
  · intro esc length st bs h
    unfold write_del at h
    cases hp : put_len length with
    | none => rw [hp] at h; simp at h
    | some tail =>
        rw [hp] at h
        simp only [Option.map_some', Option.some.injEq, Prod.mk.injEq] at h
        exact ⟨tail, rfl, h.2.symm⟩

/-- C7 witness: the framing theorem applied to the concrete call
`write_eql false 1`, whose output is `ESC`, `EQL`, then the encoded length. -/
theorem instruction_framing_witness :
    ∃ tail, put_len 1 = some tail ∧ [0xA7, 0xA3, 0x00] = 0xA7 :: 0xA3 :: tail :=
  instruction_framing.1 false 1 false [0xA7, 0xA3, 0x00] (by decide)

/-- Every call in the translated stream comes from one of the opcodes. -/
theorem mem_generate_patch_calls {new : List Nat} {runs : List Run} {c : Call}
    (h : c ∈ generate_patch_calls new runs) : ∃ r ∈ runs, c ∈ runCalls new r := by
  induction runs with
  | nil => simp [generate_patch_calls] at h
  | cons r rs ih =>
      simp only [generate_patch_calls, List.foldr_cons, List.mem_append] at h
      rcases h with h | h
      · exact ⟨r, List.mem_cons_self r rs, h⟩
      · obtain ⟨r2, hr2, hc2⟩ := ih h
        exact ⟨r2, List.mem_cons_of_mem r hr2, hc2⟩

/-- Every equal or delete length one opcode emits is positive and bounded by
the opcode's original-side end index. -/
theorem runCalls_len_bounds (new : List Nat) (r : Run) (l : Nat)
    (h : Call.eql l ∈ runCalls new r ∨ Call.del l ∈ runCalls new r) :
    1 ≤ l ∧ l ≤ r.i2 := by
  obtain ⟨tag, i1, i2, j1, j2⟩ := r
  cases tag <;> dsimp only [runCalls] at h ⊢
  · rcases h with h | h <;> split_ifs at h <;> (simp_all; try omega)
  · rcases h with h | h <;> split_ifs at h <;> (simp_all; try omega)
  · rcases h with h | h <;> simp_all
  · rcases h with h | h <;> split_ifs at h <;> (simp_all; try omega)

/-- C8 (confirmed): the translation loop of `generate_patch` only ever calls
`write_eql` and `write_del` with a length at least 1, and an equal or delete
opcode whose range is empty (`i2 = i1`) produces no writer calls at all (and,
the calls being none, raises nothing). -/
theorem zero_length_suppression (new : List Nat) (runs : List Run) :
    (∀ l, Call.eql l ∈ generate_patch_calls new runs → 1 ≤ l) ∧
    (∀ l, Call.del l ∈ generate_patch_calls new runs → 1 ≤ l) ∧
    (∀ r ∈ runs, (r.tag = .equal ∨ r.tag = .delete) → r.i2 = r.i1 →
      runCalls new r = []) := by
  refine ⟨?_, ?_, ?_⟩
  · intro l hl
    obtain ⟨r, _, hc⟩ := mem_generate_patch_calls hl
    exact (runCalls_len_bounds new r l (Or.inl hc)).1
  · intro l hl
    obtain ⟨r, _, hc⟩ := mem_generate_patch_calls hl
    exact (runCalls_len_bounds new r l (Or.inr hc)).1
  · intro r _ htag hii
    obtain ⟨tag, i1, i2, j1, j2⟩ := r
    simp only at htag hii
    subst hii
    rcases htag with h | h <;> subst h <;> simp [runCalls]

/-- C8 witness: the suppression theorem applied to a concrete opcode list
with an empty equal run, an empty delete run and a positive delete run. -/
theorem zero_length_suppression_witness :
    (1 ≤ 2 ∧ runCalls [] ⟨.equal, 3, 3, 0, 0⟩ = []) ∧
      runCalls [] ⟨.delete, 5, 5, 0, 0⟩ = [] := by
  have h := zero_length_suppression []
    [⟨.equal, 3, 3, 0, 0⟩, ⟨.delete, 5, 5, 0, 0⟩, ⟨.delete, 0, 2, 0, 0⟩]
  exact ⟨⟨h.2.1 2 (by decide), h.2.2 ⟨.equal, 3, 3, 0, 0⟩ (by simp) (Or.inl rfl) rfl⟩,
    h.2.2 ⟨.delete, 5, 5, 0, 0⟩ (by simp) (Or.inr rfl) rfl⟩

/-- Executing a call list succeeds whenever every equal/delete length in it
lies in the success domain of `_put_len`; insert and mod calls never fail. -/
theorem execCalls_isSome (cs : List Call)
    (h : ∀ l, Call.eql l ∈ cs ∨ Call.del l ∈ cs →
      1 ≤ l ∧ l ≤ 18446744073709551615) :
    ∀ st, (execCalls st cs).isSome := by
  induction cs with
  | nil => intro st; simp [execCalls]
  | cons c cs ih =>
      intro st
      have hrest : ∀ l, Call.eql l ∈ cs ∨ Call.del l ∈ cs →
          1 ≤ l ∧ l ≤ 18446744073709551615 := by
        intro l hl
        refine h l ?_
        rcases hl with hl | hl
        · exact Or.inl (List.mem_cons_of_mem c hl)
        · exact Or.inr (List.mem_cons_of_mem c hl)
      cases c with
      | eql l =>
          obtain ⟨h1, h2⟩ := h l (Or.inl (List.mem_cons_self _ _))
          have hps : (put_len (l : Int)).isSome := by
            rw [put_len_isSome]
            constructor
            · exact_mod_cast h1
            · exact_mod_cast h2
          obtain ⟨tail, htail⟩ := Option.isSome_iff_exists.mp hps
          simp only [execCalls, execCall, write_eql, htail, Option.map_some',
            Option.some_bind]
          exact ih hrest _
      | del l =>
          obtain ⟨h1, h2⟩ := h l (Or.inr (List.mem_cons_self _ _))
          have hps : (put_len (l : Int)).isSome := by
            rw [put_len_isSome]
            constructor
            · exact_mod_cast h1
            · exact_mod_cast h2
          obtain ⟨tail, htail⟩ := Option.isSome_iff_exists.mp hps
          simp only [execCalls, execCall, write_del, htail, Option.map_some',
            Option.some_bind]
          exact ih hrest _
      | ins b =>
          simp only [execCalls, execCall, Option.some_bind]
          exact ih hrest _
      | mod b =>
          simp only [execCalls, execCall, Option.some_bind]
          exact ih hrest _

/-- C9 (confirmed): `generate_patch` completes without raising on every
opcode list whose original-side end indices stay inside `orig` — which every
well-formed run sequence over `orig` satisfies, since half-open ranges
partitioning `[0, len(orig))` monotonically end at or before `len(orig)`.
The size bound holds for every byte sequence a Python runtime can represent
(`len(orig) ≤ sys.maxsize = 2^63 - 1 < 2^64`); within the codec, the only
failure points are the `_put_len` calls, and their lengths stay in range. -/
theorem encode_total (orig new : List Nat) (runs : List Run)
    (hwf : ∀ r ∈ runs, r.i2 ≤ orig.length)
    (hsz : orig.length ≤ 18446744073709551615) :
    (generate_patch new runs).isSome := by
  unfold generate_patch
  apply execCalls_isSome
  intro l hl
  have hmem : ∃ r ∈ runs, Call.eql l ∈ runCalls new r ∨ Call.del l ∈ runCalls new r := by
    rcases hl with hl | hl
    · obtain ⟨r, hr, hc⟩ := mem_generate_patch_calls hl
      exact ⟨r, hr, Or.inl hc⟩
    · obtain ⟨r, hr, hc⟩ := mem_generate_patch_calls hl
      exact ⟨r, hr, Or.inr hc⟩
  obtain ⟨r, hr, hc⟩ := hmem
  obtain ⟨hb1, hb2⟩ := runCalls_len_bounds new r l hc
  exact ⟨hb1, by have := hwf r hr; omega⟩

/-- C9 witness: totality applied to a concrete pair of inputs and a
well-formed opcode list with one run of every tag. -/
theorem encode_total_witness :
    (generate_patch [7, 0xA7]
      [⟨.equal, 0, 1, 0, 1⟩, ⟨.replace, 1, 3, 1, 1⟩, ⟨.delete, 3, 4, 1, 1⟩,
       ⟨.insert, 4, 4, 1, 2⟩]).isSome :=
  encode_total [1, 2, 3, 4] [7, 0xA7]
    [⟨.equal, 0, 1, 0, 1⟩, ⟨.replace, 1, 3, 1, 1⟩, ⟨.delete, 3, 4, 1, 1⟩,
     ⟨.insert, 4, 4, 1, 2⟩]
    (by decide) (by norm_num)

/-- C1 (code bug, evaluated at the failing input): for `orig = b""`,
`new = b"\xA7"` the edit-script source yields the single opcode
`insert(0,0,0,1)`, and `generate_patch` emits only the two bytes
`ESC, INS` — the inserted literal `0xA7` stays latched in the escape state
and is never written.  Decoding that patch per sections 4.1-4.3 and 6
reconstructs `b""`, not `new`, so the round-trip claim fails on the code. -/
theorem roundtrip_fails_on_trailing_esc :
    generate_patch [0xA7] [⟨.insert, 0, 0, 0, 1⟩] = some (true, [0xA7, 0xA5]) ∧
    jpatch [] [0xA7, 0xA5] = some [] ∧ jpatch [] [0xA7, 0xA5] ≠ some [0xA7] := by
  refine ⟨by decide, by decide, by decide⟩

/-- C2 (code bug, evaluated at the failing input): for `orig = b"A"`,
`new = b"A\xA7"` (opcodes `equal(0,1,0,1)`, `insert(1,1,1,2)`) the encode
pass ends with the escape state still true, and the bytes produced stop right
after the `INS` marker: no pending literal `ESC` or follow-up framing is ever
emitted before the stream is closed — `generate_patch` has no flush step
after its loop, contradicting the required escape-tail flush. -/
theorem escape_tail_not_flushed :
    generate_patch [0x41, 0xA7] [⟨.equal, 0, 1, 0, 1⟩, ⟨.insert, 1, 1, 1, 2⟩] =
      some (true, [0xA7, 0xA3, 0x00, 0xA7, 0xA5]) := by
  decide

end JDiff
